import Mathlib

set_option maxRecDepth 100000

set_option maxHeartbeats 4000000

/-
Verification of the shaper-dominoes core: a shallow embedding of the
valid-code enumerator, the unique sampler, and the layout/pagination
engine, translated from
`src/dominoes-web-app/src/lib/shaper-domino/dominoFactory.ts`,
`src/dominoes-web-app/src/lib/shaper-domino/pdf.ts`,
`src/dominoes-web-app/src/lib/shaper-domino/domino.ts` and the C#
`DominoFactory.cs` / `Domino.cs` sources.

Machine integers are modelled as `Nat` (all values involved fit in 16 or
32 bits, and every mask keeps them there); floating-point page geometry
is modelled over `ℚ` with `Int.floor` standing for `Math.floor`.
-/
/-! ### Bit-layout constants (dominoFactory.ts lines 7-9, DominoFactory.cs lines 35-37) -/
def CONSTANT_PIPS_MASK : Nat := 0b1000000110000001

/-- Models the JS/C# expression `~CONSTANT_PIPS_MASK & 0xffff`: complement within 16 bits. -/
def DATA_BITS_MASK : Nat := 0xffff ^^^ CONSTANT_PIPS_MASK

/-! ### The 8-bit reversal table (createReverseTable): the table entry for `i`
is computed by the loop `for b in [0,8): r = (r << 1) | (v & 1); v >>= 1`,
so the table lookup `REVERSE8[i]` is the function `reverse8 i`. -/
def reverse8Loop : Nat → Nat → Nat → Nat
  | _, r, 0 => r
  | v, r, b + 1 => reverse8Loop (v >>> 1) ((r <<< 1) ||| (v &&& 1)) b

def reverse8 (i : Nat) : Nat := reverse8Loop i 0 8

/-! ### popCount12 (dominoFactory.ts lines 99-108): the loop `while x: x &= x-1`
clears one set bit per iteration, so 12 iterations of fuel bound the loop
for the 12-bit masked input. -/
def popCountLoop : Nat → Nat → Nat
  | _, 0 => 0
  | x, fuel + 1 => if x = 0 then 0 else popCountLoop (x &&& (x - 1)) fuel + 1

def popCount12 (n : Nat) : Nat := popCountLoop (n &&& 0xfff) 12

/-- Models `System.Numerics.BitOperations.PopCount((uint)dataBits)` in DominoFactory.cs:
the number of set bits of a 32-bit value. -/
def csPopCount (n : Nat) : Nat := ((List.range 32).filter (fun b => n.testBit b)).length

/-! ### The per-candidate construction shared by both enumerator loop bodies
(dominoFactory.ts lines 117-121, DominoFactory.cs lines 163-170). -/
/-- Source: `col0 = ((dataBits & 0x3f) << 1) | 0b10000001`. -/
def dominoCol0 (dataBits : Nat) : Nat := ((dataBits &&& 0x3f) <<< 1) ||| 0b10000001

/-- Source: `col1 = (((dataBits >> 6) & 0x3f) << 1) | 0b10000001`. -/
def dominoCol1 (dataBits : Nat) : Nat := (((dataBits >>> 6) &&& 0x3f) <<< 1) ||| 0b10000001

/-- The TS assembly (line 121): `value = (col0 | (col1 << 8)) & 0xffff`. -/
def dominoValue (dataBits : Nat) : Nat := (dominoCol0 dataBits ||| (dominoCol1 dataBits <<< 8)) &&& 0xffff

/-- The C# assembly (line 170, without the mask): `value = col0 | (col1 << 8)`. -/
def dominoValueCS (dataBits : Nat) : Nat := dominoCol0 dataBits ||| (dominoCol1 dataBits <<< 8)

/-- Recovers `dataBits` from an assembled value: payload bits 1-6 and 9-14
hold the two 6-bit halves.  Used only to show `dominoValue` is injective. -/
def dominoExtract (v : Nat) : Nat := ((v >>> 1) &&& 0x3f) ||| (((v >>> 9) &&& 0x3f) <<< 6)

/-! ### buildValidDominoesList (dominoFactory.ts lines 110-137).
The `for (dataBits = 0; dataBits < 1 << 12; dataBits++)` loop with its
`continue` guards becomes a recursion on the remaining iteration count;
the `seen` set is the list of already-inserted values, and the `list.push`
in source order becomes consing the emitted value onto the rest of the run. -/
def buildLoop (seen : List Nat) (dataBits : Nat) : Nat → List Nat
  | 0 => []
  | fuel + 1 =>
    if popCount12 dataBits ≠ 6 then buildLoop seen (dataBits + 1) fuel
    else if reverse8 (dominoCol0 dataBits) = dominoCol1 dataBits then
      buildLoop seen (dataBits + 1) fuel
    else if (dominoValue dataBits &&& CONSTANT_PIPS_MASK) &&& 0xffff ≠ CONSTANT_PIPS_MASK then
      buildLoop seen (dataBits + 1) fuel
    else if (dominoValue dataBits &&& DATA_BITS_MASK) &&& 0xffff ≠ dominoValue dataBits &&& DATA_BITS_MASK then
      buildLoop seen (dataBits + 1) fuel
    else if dominoValue dataBits ∈ seen then buildLoop seen (dataBits + 1) fuel
    else dominoValue dataBits :: buildLoop (dominoValue dataBits :: seen) (dataBits + 1) fuel

def buildValidDominoesList : List Nat := buildLoop [] 0 4096

/-! ### BuildValidDominoesList (DominoFactory.cs lines 144-187): same loop with
`BitOperations.PopCount`, no `& 0xffff` on the assembled value, and no
sanity-check guards. -/
def buildLoopCS (seen : List Nat) (dataBits : Nat) : Nat → List Nat
  | 0 => []
  | fuel + 1 =>
    if csPopCount dataBits ≠ 6 then buildLoopCS seen (dataBits + 1) fuel
    else if reverse8 (dominoCol0 dataBits) = dominoCol1 dataBits then
      buildLoopCS seen (dataBits + 1) fuel
    else if dominoValueCS dataBits ∈ seen then buildLoopCS seen (dataBits + 1) fuel
    else dominoValueCS dataBits :: buildLoopCS (dominoValueCS dataBits :: seen) (dataBits + 1) fuel

def buildValidDominoesListCS : List Nat := buildLoopCS [] 0 4096

/-- The module-level `VALID_DOMINOES` constant (dominoFactory.ts line 12). -/
def VALID_DOMINOES : List Nat := buildValidDominoesList

namespace DominoFactory

/-- Accessor `DominoFactory.getValidDominoes()` (dominoFactory.ts lines 23-25). -/
def getValidDominoes : List Nat := VALID_DOMINOES

end DominoFactory

/-! ### The guard towers of the two loops, collapsed into acceptance predicates. -/
def dominoAccepted (d : Nat) : Bool :=
  popCount12 d == 6
  && !(reverse8 (dominoCol0 d) == dominoCol1 d)
  && ((dominoValue d &&& CONSTANT_PIPS_MASK) &&& 0xffff == CONSTANT_PIPS_MASK)
  && ((dominoValue d &&& DATA_BITS_MASK) &&& 0xffff == dominoValue d &&& DATA_BITS_MASK)

def dominoAcceptedCS (d : Nat) : Bool :=
  csPopCount d == 6 && !(reverse8 (dominoCol0 d) == dominoCol1 d)

/-- A generic form of both enumerator loops: test `accept`, dedupe against
`seen`, emit `val`. -/
def enumLoop (accept : Nat → Bool) (val : Nat → Nat) (seen : List Nat) (d : Nat) : Nat → List Nat
  | 0 => []
  | fuel + 1 =>
    if accept d then
      if val d ∈ seen then enumLoop accept val seen (d + 1) fuel
      else val d :: enumLoop accept val (val d :: seen) (d + 1) fuel
    else enumLoop accept val seen (d + 1) fuel

/-! ### Pointwise facts over the 4096-candidate space.
Kernel evaluation of a single pass over all 4096 candidates overflows the
elaborator stack, so each fact is checked on eight 512-candidate chunks
and the chunks are recombined. -/
def allInRange (p : Nat → Bool) (s n : Nat) : Prop :=
  ∀ d, s ≤ d → d < s + n → p d = true

/-- Pointwise facts over one candidate, checked by evaluation: the extraction
inverse, agreement of the TS and C# loop bodies, redundancy of the two sanity
guards, and population count 3 of the column-0 payload of every palindromic
candidate. -/
def dominoFactsA (d : Nat) : Bool :=
  (dominoExtract (dominoValue d) == d)
  && (dominoAccepted d == dominoAcceptedCS d)
  && (dominoValue d == dominoValueCS d)
  && (dominoAccepted d == (popCount12 d == 6 && !(reverse8 (dominoCol0 d) == dominoCol1 d)))
  && (!(popCount12 d == 6 && (reverse8 (dominoCol0 d) == dominoCol1 d))
      || (popCount12 (d &&& 0x3f) == 3))

/-- The three legality invariants of an accepted candidate, as one evaluated
test. -/
def dominoFactsB (d : Nat) : Bool :=
  !dominoAccepted d ||
    ((dominoValue d).testBit 0 && (dominoValue d).testBit 7
      && (dominoValue d).testBit 8 && (dominoValue d).testBit 15
      && ([1, 2, 3, 4, 5, 6, 9, 10, 11, 12, 13, 14].countP
            (fun b => (dominoValue d).testBit b) == 6)
      && !(reverse8 (dominoValue d &&& 0xff) == (dominoValue d >>> 8) &&& 0xff))

/-! ### Tile geometry constants (domino.ts lines 169-181, Domino.cs lines 15-28).
Dimensions are inches, modelled exactly over `ℚ`. -/
namespace Domino

def DominoMargin : ℚ := 0.125

def PIP_MARGIN : ℚ := 0.1

def PIP_DIAMETER : ℚ := 0.1

def PIPS_PER_COLUMN : ℕ := 8

def COLUMNS_PER_DOMINO : ℕ := 2

def DominoHeight : ℚ := PIP_DIAMETER * PIPS_PER_COLUMN + PIP_MARGIN * (PIPS_PER_COLUMN + 1)

def DominoWidth : ℚ := PIP_DIAMETER * COLUMNS_PER_DOMINO + PIP_MARGIN * (COLUMNS_PER_DOMINO + 1)

end Domino

/-! ### calculatePageLayout (dominoFactory.ts lines 37-49, DominoFactory.cs
lines 189-202), for the fixed-height page path: the inputs are the resolved
numeric width, height, margin and strip spacing in inches, and `Math.floor`
is `Int.floor` over exact rationals.  The source returns the plain record
`{ dominoesPerRow, dominoesPerPage }` — it has no failure channel. -/
def dominoesPerColumnOf (height margin : ℚ) : ℤ :=
  ⌊((height - 2 * margin) - Domino.DominoMargin) / (Domino.DominoHeight + Domino.DominoMargin)⌋

def dominoesPerRowOf (width margin spacing : ℚ) : ℤ :=
  ⌊(width - 2 * margin) / (Domino.DominoWidth + spacing)⌋

def calculatePageLayout (width height margin spacing : ℚ) : ℤ × ℤ :=
  (dominoesPerRowOf width margin spacing,
    dominoesPerColumnOf height margin * dominoesPerRowOf width margin spacing)

/-- calculateXMargin (dominoFactory.ts lines 78-83, pdf.ts lines 205-210,
DominoFactory.cs lines 209-220). -/
def calculateXMargin (pageWidth : ℚ) (dominoesPerRow : ℕ) (centerOnPageX : Bool) (stripSpacing : ℚ) : ℚ :=
  if !centerOnPageX then stripSpacing
  else
    stripSpacing +
      (pageWidth - ((dominoesPerRow : ℚ) * Domino.DominoWidth + ((dominoesPerRow : ℚ) + 1) * stripSpacing)) / 2

/-! ### The unique sampler.
`randomInt` (dominoFactory.ts lines 139-152) returns
`minInclusive + draw % span` where `draw` is the collaborator-provided
random value (the crypto path computes `buf[0] % span`; the `Math.random`
path also lands in `[0, span)`).  Its throw-on-empty-span branch never runs
in the callers, which always pass `i < available.length`. -/
def randomInt (draw minInclusive maxExclusive : Nat) : Nat :=
  minInclusive + draw % (maxExclusive - minInclusive)

/-- The partial Fisher-Yates pass shared by `generateRandomUniqueDominoes`
(dominoFactory.ts lines 160-166, DominoFactory.cs lines 312-321) and each
round of `pickRandomDominoes` (pdf.ts lines 225-230):
`result[i] = available[j]; available[j] = available[i]` with
`j = rand i available.length`; `available.length` is unchanged by
element assignment. -/
def fisherYatesPass (rand : Nat → Nat → Nat) (avail : List Nat) (i : Nat) : Nat → List Nat
  | 0 => []
  | rem + 1 =>
    avail.getD (rand i avail.length) 0 ::
      fisherYatesPass rand (avail.set (rand i avail.length) (avail.getD i 0)) (i + 1) rem

/-- generateRandomUniqueDominoes (dominoFactory.ts lines 154-167,
DominoFactory.cs lines 302-323): `raw i` is the random draw provided by the collaborator
for iteration `i`. -/
def generateRandomUniqueDominoes (raw : Nat → Nat) (count : Nat) : Except String (List Nat) :=
  if count > VALID_DOMINOES.length then
    Except.error "Requested more unique dominoes than valid dominoes exist."
  else
    Except.ok (fisherYatesPass (fun i n => randomInt (raw i) i n) VALID_DOMINOES 0 count)

/-- One round of the `while (remaining > 0)` loop of pickRandomDominoes:
a Fisher-Yates pass of `takeCount` draws over a fresh copy of `source`,
with `j = i + draw % (available.length - i)` (pdf.ts line 226). -/
def pickPass (raw : Nat → Nat) (base : Nat) (source : List Nat) (takeCount : Nat) : List Nat :=
  fisherYatesPass (fun i n => i + raw (base + i) % (n - i)) source 0 takeCount

/-- The `while (remaining > 0)` loop of pickRandomDominoes (pdf.ts lines
221-232).  Each round takes `min remaining source.length` values, so
`remaining` itself bounds the number of rounds and serves as fuel. -/
def pickWhileLoop (raw : Nat → Nat) (source : List Nat) : Nat → Nat → Nat → List Nat
  | 0, _, _ => []
  | fuel + 1, remaining, base =>
    if remaining = 0 then []
    else
      pickPass raw base source (min remaining source.length)
        ++ pickWhileLoop raw source fuel (remaining - min remaining source.length)
            (base + min remaining source.length)

/-- pickRandomDominoes (pdf.ts lines 212-235): fails only on an empty source;
for any positive count it keeps taking rounds until `count` values exist,
repeating source values once the list is exhausted. -/
def pickRandomDominoes (raw : Nat → Nat) (source : List Nat) (count : Nat) : Except String (List Nat) :=
  if source.length = 0 then Except.error "No valid dominoes available."
  else if count = 0 then Except.ok []
  else Except.ok (pickWhileLoop raw source count count 0)

/-! ### Pagination (GeneratePdf, DominoFactory.cs lines 241-300; the per-page
rendering loop of generateLetterPagesPdfBlob, pdf.ts lines 93-112).
Within a page, tile `i` gets column `i % dominoesPerRow` and row
`i / dominoesPerRow` (DominoFactory.cs lines 285-286, pdf.ts lines 101-102);
the `while (remainingDominoes > 0)` loop takes
`min remaining dominoesPerPage` codes per page.  Each element of a page is
`(code, column, row)`. -/
def pageOf (perRow : Nat) : Nat → List Nat → List (Nat × Nat × Nat)
  | _, [] => []
  | i, c :: cs => (c, i % perRow, i / perRow) :: pageOf perRow (i + 1) cs

/-- The pagination loop; each round consumes `min remaining perPage ≥ 1`
codes (for `perPage ≥ 1`), so the code count itself serves as fuel. -/
def paginateFuel (perRow perPage : Nat) : Nat → List Nat → List (List (Nat × Nat × Nat))
  | 0, _ => []
  | _, [] => []
  | fuel + 1, c :: cs =>
    pageOf perRow 0 ((c :: cs).take perPage)
      :: paginateFuel perRow perPage fuel ((c :: cs).drop perPage)

def paginate (perRow perPage : Nat) (codes : List Nat) : List (List (Nat × Nat × Nat)) :=
  paginateFuel perRow perPage codes.length codes

theorem buildLoop_eq_enumLoop :
    ∀ (fuel d : Nat) (seen : List Nat),
      buildLoop seen d fuel = enumLoop dominoAccepted dominoValue seen d fuel := by
  intro fuel
  induction fuel with
  | zero => intro d seen; rfl
  | succ fuel ih =>
    intro d seen
    by_cases h1 : popCount12 d ≠ 6
    · simp [buildLoop, enumLoop, dominoAccepted, h1, ih]
    · by_cases h2 : reverse8 (dominoCol0 d) = dominoCol1 d
      · simp [buildLoop, enumLoop, dominoAccepted, h1, h2, ih]
      · by_cases h3 : (dominoValue d &&& CONSTANT_PIPS_MASK) &&& 0xffff ≠ CONSTANT_PIPS_MASK
        · simp [buildLoop, enumLoop, dominoAccepted, h1, h2, h3, ih]
        · by_cases h4 :
            (dominoValue d &&& DATA_BITS_MASK) &&& 0xffff ≠ dominoValue d &&& DATA_BITS_MASK
          · simp [buildLoop, enumLoop, dominoAccepted, h1, h2, h3, h4, ih]
          · by_cases h5 : dominoValue d ∈ seen
            · simp [buildLoop, enumLoop, dominoAccepted, h1, h2, h3, h4, h5, ih]
            · rw [not_ne_iff] at h1 h3 h4
              simp [buildLoop, enumLoop, dominoAccepted, h1, h2, h3, h4, h5, ih]

theorem buildLoopCS_eq_enumLoop :
    ∀ (fuel d : Nat) (seen : List Nat),
      buildLoopCS seen d fuel = enumLoop dominoAcceptedCS dominoValueCS seen d fuel := by
  intro fuel
  induction fuel with
  | zero => intro d seen; rfl
  | succ fuel ih =>
    intro d seen
    by_cases h1 : csPopCount d ≠ 6
    · simp [buildLoopCS, enumLoop, dominoAcceptedCS, h1, ih]
    · by_cases h2 : reverse8 (dominoCol0 d) = dominoCol1 d
      · simp [buildLoopCS, enumLoop, dominoAcceptedCS, h1, h2, ih]
      · by_cases h3 : dominoValueCS d ∈ seen
        · simp [buildLoopCS, enumLoop, dominoAcceptedCS, h1, h2, h3, ih]
        · rw [not_ne_iff] at h1
          simp [buildLoopCS, enumLoop, dominoAcceptedCS, h1, h2, h3, ih]

/-- The dedupe guard never fires when `val` is injective on the window and
`seen` holds no value of the window, so the loop is a filter-and-map. -/
theorem enumLoop_eq_filter_map (accept : Nat → Bool) (val : Nat → Nat) :
    ∀ (fuel d : Nat) (seen : List Nat),
      (∀ j, d ≤ j → j < d + fuel → accept j = true → val j ∉ seen) →
      (∀ j j', j < d + fuel → j' < d + fuel → val j = val j' → j = j') →
      enumLoop accept val seen d fuel = ((List.range' d fuel).filter accept).map val := by
  intro fuel
  induction fuel with
  | zero => intro d seen _ _; rfl
  | succ fuel ih =>
    intro d seen hseen hinj
    rw [List.range'_succ]
    by_cases ha : accept d = true
    · have hv : val d ∉ seen := hseen d le_rfl (by omega) ha
      rw [List.filter_cons_of_pos ha, List.map_cons]
      have hrec := ih (d + 1) (val d :: seen)
        (fun j hj1 hj2 hj3 => by
          simp only [List.mem_cons, not_or]
          refine ⟨fun heq => ?_, hseen j (by omega) (by omega) hj3⟩
          have := hinj j d (by omega) (by omega) heq
          omega)
        (fun j j' hj hj' heq => hinj j j' (by omega) (by omega) heq)
      simp [enumLoop, ha, hv, hrec]
    · rw [List.filter_cons_of_neg (by simpa using ha)]
      have hrec := ih (d + 1) seen
        (fun j hj1 hj2 hj3 => hseen j (by omega) (by omega) hj3)
        (fun j j' hj hj' heq => hinj j j' (by omega) (by omega) heq)
      simp [enumLoop, ha, hrec]

theorem allInRange_of_filter {p : Nat → Bool} {s n : Nat}
    (h : ((List.range' s n).filter p).length = n) : allInRange p s n := by
  intro d h1 h2
  have hall : ∀ a ∈ List.range' s n, p a :=
    List.filter_length_eq_length.mp (by rw [h, List.length_range'])
  exact hall d (List.mem_range'.mpr ⟨d - s, by omega, by omega⟩)

theorem allInRange_append {p : Nat → Bool} {s m n : Nat}
    (h1 : allInRange p s m) (h2 : allInRange p (s + m) n) : allInRange p s (m + n) := by
  intro d hd1 hd2
  by_cases hc : d < s + m
  · exact h1 d hd1 hc
  · exact h2 d (by omega) (by omega)

theorem allInRange4096 (p : Nat → Bool)
    (h0 : ((List.range' 0 512).filter p).length = 512)
    (h1 : ((List.range' 512 512).filter p).length = 512)
    (h2 : ((List.range' 1024 512).filter p).length = 512)
    (h3 : ((List.range' 1536 512).filter p).length = 512)
    (h4 : ((List.range' 2048 512).filter p).length = 512)
    (h5 : ((List.range' 2560 512).filter p).length = 512)
    (h6 : ((List.range' 3072 512).filter p).length = 512)
    (h7 : ((List.range' 3584 512).filter p).length = 512) :
    allInRange p 0 4096 :=
  allInRange_append (allInRange_of_filter h0) <|
    allInRange_append (allInRange_of_filter h1) <|
      allInRange_append (allInRange_of_filter h2) <|
        allInRange_append (allInRange_of_filter h3) <|
          allInRange_append (allInRange_of_filter h4) <|
            allInRange_append (allInRange_of_filter h5) <|
              allInRange_append (allInRange_of_filter h6) (allInRange_of_filter h7)

/-- Chunked evaluation of a filter count over the whole candidate space. -/
theorem filterCount4096 (p : Nat → Bool) (c0 c1 c2 c3 c4 c5 c6 c7 : Nat)
    (h0 : ((List.range' 0 512).filter p).length = c0)
    (h1 : ((List.range' 512 512).filter p).length = c1)
    (h2 : ((List.range' 1024 512).filter p).length = c2)
    (h3 : ((List.range' 1536 512).filter p).length = c3)
    (h4 : ((List.range' 2048 512).filter p).length = c4)
    (h5 : ((List.range' 2560 512).filter p).length = c5)
    (h6 : ((List.range' 3072 512).filter p).length = c6)
    (h7 : ((List.range' 3584 512).filter p).length = c7) :
    ((List.range 4096).filter p).length = c0 + c1 + c2 + c3 + c4 + c5 + c6 + c7 := by
  have hsplit : List.range 4096 =
      List.range' 0 512 ++ (List.range' 512 512 ++ (List.range' 1024 512 ++
        (List.range' 1536 512 ++ (List.range' 2048 512 ++ (List.range' 2560 512 ++
          (List.range' 3072 512 ++ List.range' 3584 512)))))) := by
    rw [List.range_eq_range']
    repeat rw [List.range'_append_1]
  rw [hsplit]
  simp only [List.filter_append, List.length_append]
  omega

/-! ### One kernel-evaluated chunk per helper theorem, to keep each
declaration's check small. -/

theorem dominoFactsA_chunk0 : ((List.range' 0 512).filter dominoFactsA).length = 512 := by decide
theorem dominoFactsA_chunk1 : ((List.range' 512 512).filter dominoFactsA).length = 512 := by decide
theorem dominoFactsA_chunk2 : ((List.range' 1024 512).filter dominoFactsA).length = 512 := by decide
theorem dominoFactsA_chunk3 : ((List.range' 1536 512).filter dominoFactsA).length = 512 := by decide
theorem dominoFactsA_chunk4 : ((List.range' 2048 512).filter dominoFactsA).length = 512 := by decide
theorem dominoFactsA_chunk5 : ((List.range' 2560 512).filter dominoFactsA).length = 512 := by decide
theorem dominoFactsA_chunk6 : ((List.range' 3072 512).filter dominoFactsA).length = 512 := by decide
theorem dominoFactsA_chunk7 : ((List.range' 3584 512).filter dominoFactsA).length = 512 := by decide

theorem dominoFactsB_chunk0 : ((List.range' 0 512).filter dominoFactsB).length = 512 := by decide
theorem dominoFactsB_chunk1 : ((List.range' 512 512).filter dominoFactsB).length = 512 := by decide
theorem dominoFactsB_chunk2 : ((List.range' 1024 512).filter dominoFactsB).length = 512 := by decide
theorem dominoFactsB_chunk3 : ((List.range' 1536 512).filter dominoFactsB).length = 512 := by decide
theorem dominoFactsB_chunk4 : ((List.range' 2048 512).filter dominoFactsB).length = 512 := by decide
theorem dominoFactsB_chunk5 : ((List.range' 2560 512).filter dominoFactsB).length = 512 := by decide
theorem dominoFactsB_chunk6 : ((List.range' 3072 512).filter dominoFactsB).length = 512 := by decide
theorem dominoFactsB_chunk7 : ((List.range' 3584 512).filter dominoFactsB).length = 512 := by decide

theorem acceptedCount_chunk0 : ((List.range' 0 512).filter dominoAccepted).length = 83 := by decide
theorem acceptedCount_chunk1 : ((List.range' 512 512).filter dominoAccepted).length = 123 := by decide
theorem acceptedCount_chunk2 : ((List.range' 1024 512).filter dominoAccepted).length = 123 := by decide
theorem acceptedCount_chunk3 : ((List.range' 1536 512).filter dominoAccepted).length = 123 := by decide
theorem acceptedCount_chunk4 : ((List.range' 2048 512).filter dominoAccepted).length = 123 := by decide
theorem acceptedCount_chunk5 : ((List.range' 2560 512).filter dominoAccepted).length = 123 := by decide
theorem acceptedCount_chunk6 : ((List.range' 3072 512).filter dominoAccepted).length = 123 := by decide
theorem acceptedCount_chunk7 : ((List.range' 3584 512).filter dominoAccepted).length = 83 := by decide

theorem candCount_chunk0 : ((List.range' 0 512).filter (fun d => popCount12 d == 6)).length = 84 := by decide
theorem candCount_chunk1 : ((List.range' 512 512).filter (fun d => popCount12 d == 6)).length = 126 := by decide
theorem candCount_chunk2 : ((List.range' 1024 512).filter (fun d => popCount12 d == 6)).length = 126 := by decide
theorem candCount_chunk3 : ((List.range' 1536 512).filter (fun d => popCount12 d == 6)).length = 126 := by decide
theorem candCount_chunk4 : ((List.range' 2048 512).filter (fun d => popCount12 d == 6)).length = 126 := by decide
theorem candCount_chunk5 : ((List.range' 2560 512).filter (fun d => popCount12 d == 6)).length = 126 := by decide
theorem candCount_chunk6 : ((List.range' 3072 512).filter (fun d => popCount12 d == 6)).length = 126 := by decide
theorem candCount_chunk7 : ((List.range' 3584 512).filter (fun d => popCount12 d == 6)).length = 84 := by decide

theorem dominoFactsA_all : allInRange dominoFactsA 0 4096 :=
  allInRange4096 dominoFactsA dominoFactsA_chunk0 dominoFactsA_chunk1 dominoFactsA_chunk2
    dominoFactsA_chunk3 dominoFactsA_chunk4 dominoFactsA_chunk5 dominoFactsA_chunk6
    dominoFactsA_chunk7

theorem dominoFactsB_all : allInRange dominoFactsB 0 4096 :=
  allInRange4096 dominoFactsB dominoFactsB_chunk0 dominoFactsB_chunk1 dominoFactsB_chunk2
    dominoFactsB_chunk3 dominoFactsB_chunk4 dominoFactsB_chunk5 dominoFactsB_chunk6
    dominoFactsB_chunk7

/-- The extraction `dominoExtract` undoes `dominoValue`, so the assembly is injective. -/
theorem domino_extract_inverse : ∀ d, d < 4096 → dominoExtract (dominoValue d) = d := by
  intro d hd
  have h := dominoFactsA_all d (by omega) (by omega)
  simp only [dominoFactsA, Bool.and_eq_true, beq_iff_eq] at h
  exact h.1.1.1.1

theorem dominoValue_inj :
    ∀ j j', j < 4096 → j' < 4096 → dominoValue j = dominoValue j' → j = j' := by
  intro j j' hj hj' heq
  have h1 := domino_extract_inverse j hj
  have h2 := domino_extract_inverse j' hj'
  rw [← h1, ← h2, heq]

theorem buildValidDominoesList_eq :
    buildValidDominoesList = ((List.range 4096).filter dominoAccepted).map dominoValue := by
  rw [buildValidDominoesList, buildLoop_eq_enumLoop, List.range_eq_range']
  exact enumLoop_eq_filter_map _ _ 4096 0 []
    (fun j _ _ _ => List.not_mem_nil _)
    (fun j j' hj hj' => dominoValue_inj j j' (by omega) (by omega))

/-- The TS and C# loop bodies agree on every candidate: same acceptance
decision and same assembled value. -/
theorem domino_ts_cs_agree : ∀ d, d < 4096 →
    dominoAccepted d = dominoAcceptedCS d ∧ dominoValue d = dominoValueCS d := by
  intro d hd
  have h := dominoFactsA_all d (by omega) (by omega)
  simp only [dominoFactsA, Bool.and_eq_true, beq_iff_eq] at h
  exact ⟨h.1.1.1.2, h.1.1.2⟩

/-- The two sanity guards of the TS loop never reject, so acceptance is just
the population-count test plus the palindrome test. -/
theorem dominoAccepted_simplified : ∀ d, d < 4096 →
    dominoAccepted d = (popCount12 d == 6 && !(reverse8 (dominoCol0 d) == dominoCol1 d)) := by
  intro d hd
  have h := dominoFactsA_all d (by omega) (by omega)
  simp only [dominoFactsA, Bool.and_eq_true, beq_iff_eq] at h
  exact h.1.2

/-- Every palindromic candidate with global population count 6 has exactly
3 set bits in its column-0 payload. -/
theorem domino_palindrome_popcount3 : ∀ d, d < 4096 →
    (popCount12 d == 6 && (reverse8 (dominoCol0 d) == dominoCol1 d)) = true →
    (popCount12 (d &&& 0x3f) == 3) = true := by
  intro d hd hpal
  have h := dominoFactsA_all d (by omega) (by omega)
  simp only [dominoFactsA, Bool.and_eq_true, beq_iff_eq] at h
  have h5 := h.2
  rw [hpal] at h5
  simpa using h5

/-- Every accepted candidate's assembled value satisfies the three legality
invariants: frame bits set in both columns, payload population count 6, and
column 0 reversed differing from column 1. -/
theorem domino_invariants : ∀ d, d < 4096 → dominoAccepted d = true →
    ((dominoValue d).testBit 0 ∧ (dominoValue d).testBit 7
      ∧ (dominoValue d).testBit 8 ∧ (dominoValue d).testBit 15)
    ∧ ([1, 2, 3, 4, 5, 6, 9, 10, 11, 12, 13, 14].countP (fun b => (dominoValue d).testBit b)) = 6
    ∧ reverse8 (dominoValue d &&& 0xff) ≠ (dominoValue d >>> 8) &&& 0xff := by
  intro d hd ha
  have h := dominoFactsB_all d (by omega) (by omega)
  simp only [dominoFactsB, ha, Bool.not_true, Bool.false_or, Bool.and_eq_true, beq_iff_eq,
    Bool.not_eq_true', beq_eq_false_iff_ne, ne_eq] at h
  exact ⟨⟨h.1.1.1.1.1, h.1.1.1.1.2, h.1.1.1.2, h.1.1.2⟩, h.1.2, h.2⟩

theorem dominoValueCS_inj :
    ∀ j j', j < 4096 → j' < 4096 → dominoValueCS j = dominoValueCS j' → j = j' := by
  intro j j' hj hj' heq
  have h1 := (domino_ts_cs_agree j hj).2
  have h2 := (domino_ts_cs_agree j' hj').2
  exact dominoValue_inj j j' hj hj' (by rw [h1, h2, heq])

theorem buildValidDominoesListCS_eq :
    buildValidDominoesListCS = ((List.range 4096).filter dominoAcceptedCS).map dominoValueCS := by
  rw [buildValidDominoesListCS, buildLoopCS_eq_enumLoop, List.range_eq_range']
  exact enumLoop_eq_filter_map _ _ 4096 0 []
    (fun j _ _ _ => List.not_mem_nil _)
    (fun j j' hj hj' => dominoValueCS_inj j j' (by omega) (by omega))

/-! ### Derived facts about the enumerated list. -/

theorem accepted_count : ((List.range 4096).filter dominoAccepted).length = 904 := by
  have h := filterCount4096 dominoAccepted 83 123 123 123 123 123 123 83
    acceptedCount_chunk0 acceptedCount_chunk1 acceptedCount_chunk2 acceptedCount_chunk3
    acceptedCount_chunk4 acceptedCount_chunk5 acceptedCount_chunk6 acceptedCount_chunk7
  rw [h]

theorem candidates_count :
    ((List.range 4096).filter (fun d => popCount12 d == 6)).length = 924 := by
  have h := filterCount4096 (fun d => popCount12 d == 6) 84 126 126 126 126 126 126 84
    candCount_chunk0 candCount_chunk1 candCount_chunk2 candCount_chunk3
    candCount_chunk4 candCount_chunk5 candCount_chunk6 candCount_chunk7
  rw [h]

theorem accepted_filter_simplified :
    (List.range 4096).filter dominoAccepted
      = (List.range 4096).filter
          (fun d => popCount12 d == 6 && !(reverse8 (dominoCol0 d) == dominoCol1 d)) :=
  List.filter_congr (fun x hx => dominoAccepted_simplified x (List.mem_range.mp hx))

theorem validDominoes_length : buildValidDominoesList.length = 904 := by
  rw [buildValidDominoesList_eq, List.length_map, accepted_count]

theorem validDominoes_nodup : buildValidDominoesList.Nodup := by
  rw [buildValidDominoesList_eq]
  refine List.Nodup.map_on ?_ (List.Nodup.filter _ (List.nodup_range 4096))
  intro x hx y hy hxy
  exact dominoValue_inj x y
    (List.mem_range.mp (List.mem_filter.mp hx).1)
    (List.mem_range.mp (List.mem_filter.mp hy).1) hxy

/-- C1: every code in the list returned by the valid-code enumerator satisfies
all three legality invariants: bits 0 and 7 of each 8-bit column are set,
exactly 6 of the 12 non-frame payload bits are set across the 16-bit value,
and the 8-bit reversal of column 0 is not equal to column 1. -/
theorem valid_dominoes_invariants :
    ∀ v ∈ buildValidDominoesList,
      (v.testBit 0 ∧ v.testBit 7 ∧ v.testBit 8 ∧ v.testBit 15)
      ∧ ([1, 2, 3, 4, 5, 6, 9, 10, 11, 12, 13, 14].countP (fun b => v.testBit b)) = 6
      ∧ reverse8 (v &&& 0xff) ≠ (v >>> 8) &&& 0xff := by
  intro v hv
  rw [buildValidDominoesList_eq] at hv
  obtain ⟨d, hd, rfl⟩ := List.mem_map.mp hv
  obtain ⟨hdr, hda⟩ := List.mem_filter.mp hd
  exact domino_invariants d (List.mem_range.mp hdr) hda

/-- Witness for C1 at the first enumerated code 33279 = 0x81FF. -/
theorem valid_dominoes_invariants_witness :
    33279 ∈ buildValidDominoesList
    ∧ (((33279 : Nat).testBit 0 ∧ (33279 : Nat).testBit 7
        ∧ (33279 : Nat).testBit 8 ∧ (33279 : Nat).testBit 15)
      ∧ ([1, 2, 3, 4, 5, 6, 9, 10, 11, 12, 13, 14].countP (fun b => (33279 : Nat).testBit b)) = 6
      ∧ reverse8 (33279 &&& 0xff) ≠ (33279 >>> 8) &&& 0xff) := by
  have hm : (33279 : Nat) ∈ buildValidDominoesList := by
    rw [buildValidDominoesList_eq]
    exact List.mem_map.mpr
      ⟨63, List.mem_filter.mpr ⟨List.mem_range.mpr (by norm_num), by decide⟩, by decide⟩
  exact ⟨hm, valid_dominoes_invariants 33279 hm⟩

/-- C7: the enumeration contains no duplicates, and the accessor returns the
once-computed module-level list, so repeated calls yield the identical
sequence. -/
theorem valid_dominoes_nodup_stable :
    buildValidDominoesList.Nodup
    ∧ DominoFactory.getValidDominoes = buildValidDominoesList
    ∧ VALID_DOMINOES = buildValidDominoesList :=
  ⟨validDominoes_nodup, rfl, rfl⟩

/-- C9: the TypeScript and C# enumerators compute exactly the same ordered
list of 16-bit codes. -/
theorem ts_cs_enumerators_equal : buildValidDominoesList = buildValidDominoesListCS := by
  rw [buildValidDominoesList_eq, buildValidDominoesListCS_eq]
  have hf : (List.range 4096).filter dominoAccepted = (List.range 4096).filter dominoAcceptedCS :=
    List.filter_congr (fun x hx => (domino_ts_cs_agree x (List.mem_range.mp hx)).1)
  rw [← hf]
  exact List.map_congr_left
    (fun x hx => (domino_ts_cs_agree x (List.mem_range.mp (List.mem_filter.mp hx).1)).2)

theorem palindromes_count :
    ((List.range 4096).filter (fun d => popCount12 d == 6
        && (reverse8 (dominoCol0 d) == dominoCol1 d))).length = 20 := by
  have hsplit := List.length_eq_length_filter_add
    (l := (List.range 4096).filter (fun d => popCount12 d == 6))
    (fun d => reverse8 (dominoCol0 d) == dominoCol1 d)
  rw [candidates_count, List.filter_filter, List.filter_filter] at hsplit
  have h1 : (List.range 4096).filter
        (fun a => (reverse8 (dominoCol0 a) == dominoCol1 a) && (popCount12 a == 6))
      = (List.range 4096).filter
          (fun d => popCount12 d == 6 && (reverse8 (dominoCol0 d) == dominoCol1 d)) :=
    List.filter_congr (fun x _ => Bool.and_comm _ _)
  have h2 : (List.range 4096).filter
        (fun a => (!(reverse8 (dominoCol0 a) == dominoCol1 a)) && (popCount12 a == 6))
      = (List.range 4096).filter dominoAccepted := by
    rw [accepted_filter_simplified]
    exact List.filter_congr (fun x _ => Bool.and_comm _ _)
  rw [h1, h2, accepted_count] at hsplit
  omega

theorem palindromes_pc3_count :
    ((List.range 4096).filter (fun d => popCount12 d == 6
        && (reverse8 (dominoCol0 d) == dominoCol1 d)
        && (popCount12 (d &&& 0x3f) == 3))).length = 20 := by
  have heq : (List.range 4096).filter (fun d => popCount12 d == 6
        && (reverse8 (dominoCol0 d) == dominoCol1 d)
        && (popCount12 (d &&& 0x3f) == 3))
      = (List.range 4096).filter (fun d => popCount12 d == 6
          && (reverse8 (dominoCol0 d) == dominoCol1 d)) := by
    refine List.filter_congr (fun x hx => ?_)
    by_cases h : (popCount12 x == 6 && (reverse8 (dominoCol0 x) == dominoCol1 x)) = true
    · rw [h, domino_palindrome_popcount3 x (List.mem_range.mp hx) h]
      rfl
    · have hf : (popCount12 x == 6 && (reverse8 (dominoCol0 x) == dominoCol1 x)) = false := by
        simpa using h
      rw [hf]
      simp
  rw [heq, palindromes_count]

/-- C10: of the 924 payload combinations with population count 6, exactly the
20 whose column-0 payload (population count 3) reverses onto the column-1
payload are rejected by the palindrome test, and the enumeration keeps all
remaining 904 candidates in order. -/
theorem valid_dominoes_count :
    buildValidDominoesList.length = 904
    ∧ ((List.range 4096).filter (fun d => popCount12 d == 6)).length = 924
    ∧ ((List.range 4096).filter (fun d => popCount12 d == 6
          && (reverse8 (dominoCol0 d) == dominoCol1 d))).length = 20
    ∧ ((List.range 4096).filter (fun d => popCount12 d == 6
          && (reverse8 (dominoCol0 d) == dominoCol1 d)
          && (popCount12 (d &&& 0x3f) == 3))).length = 20
    ∧ buildValidDominoesList =
        ((List.range 4096).filter (fun d => popCount12 d == 6
          && !(reverse8 (dominoCol0 d) == dominoCol1 d))).map dominoValue := by
  refine ⟨validDominoes_length, candidates_count, palindromes_count, palindromes_pc3_count, ?_⟩
  rw [buildValidDominoesList_eq]
  exact congrArg (List.map dominoValue) accepted_filter_simplified

/-- C5: on US Letter (width 8.5, height 11) with margin 0.25 and spacing
0.125, the layout computes 12 tiles per row, 5 tiles per column, and 60
tiles per page. -/
theorem letter_layout_concrete :
    calculatePageLayout 8.5 11 0.25 0.125 = (12, 60)
    ∧ dominoesPerColumnOf 11 0.25 = 5 := by
  have hrow : dominoesPerRowOf 8.5 0.25 0.125 = 12 := by
    norm_num [dominoesPerRowOf, Domino.DominoWidth, Domino.PIP_DIAMETER,
      Domino.PIP_MARGIN, Domino.COLUMNS_PER_DOMINO]
  have hcol : dominoesPerColumnOf 11 0.25 = 5 := by
    norm_num [dominoesPerColumnOf, Domino.DominoHeight, Domino.DominoMargin,
      Domino.PIP_DIAMETER, Domino.PIP_MARGIN, Domino.PIPS_PER_COLUMN]
  refine ⟨?_, hcol⟩
  rw [calculatePageLayout, hrow, hcol]
  norm_num

/-- C8: with margin, nonnegative spacing and the fixed tile size held
constant, doubling a nonnegative medium width never decreases the computed
tiles per row. -/
theorem tiles_per_row_monotone_doubling (W m s : ℚ) (hW : 0 ≤ W) (hs : 0 ≤ s) :
    dominoesPerRowOf W m s ≤ dominoesPerRowOf (2 * W) m s := by
  unfold dominoesPerRowOf
  have hwidth : Domino.DominoWidth = 1 / 2 := by
    norm_num [Domino.DominoWidth, Domino.PIP_DIAMETER, Domino.PIP_MARGIN,
      Domino.COLUMNS_PER_DOMINO]
  have hpos : 0 < Domino.DominoWidth + s := by rw [hwidth]; linarith
  exact Int.floor_le_floor ((div_le_div_right hpos).mpr (by linarith))

/-- Witness for C8 at the US Letter width. -/
theorem tiles_per_row_monotone_doubling_witness :
    (0 : ℚ) ≤ 8.5 ∧ (0 : ℚ) ≤ 0.125
    ∧ dominoesPerRowOf 8.5 0.25 0.125 ≤ dominoesPerRowOf (2 * 8.5) 0.25 0.125 :=
  ⟨by norm_num, by norm_num,
    tiles_per_row_monotone_doubling 8.5 0.25 0.125 (by norm_num) (by norm_num)⟩

/-- C6 counterexample: with page width 10, one tile per row and spacing 1/8,
`x_offset + tiles_per_row × (tile_width + spacing) + spacing` is 5.5, not the
page width 10, so the claimed identity fails. -/
theorem centering_claim_counterexample :
    calculateXMargin 10 1 true 0.125 + 1 * (Domino.DominoWidth + 0.125) + 0.125 ≠ 10 := by
  norm_num [calculateXMargin, Domino.DominoWidth, Domino.PIP_DIAMETER,
    Domino.PIP_MARGIN, Domino.COLUMNS_PER_DOMINO]

/-- C6 amended: when centering is enabled, twice the offset plus
`tiles_per_row × (tile_width + spacing)` minus one trailing spacing equals the
medium width exactly — the gap left of the first tile equals the gap right of
the last tile. -/
theorem centering_symmetric (W : ℚ) (n : ℕ) (s : ℚ) (hn : 1 ≤ n) :
    2 * calculateXMargin W n true s + (n : ℚ) * (Domino.DominoWidth + s) - s = W := by
  simp only [calculateXMargin, Bool.not_true, Bool.false_eq_true, if_false]
  ring

/-- Witness for the amended C6 at width 10, one tile per row, spacing 1/8. -/
theorem centering_symmetric_witness :
    1 ≤ 1
    ∧ 2 * calculateXMargin 10 1 true 0.125 + ((1 : ℕ) : ℚ) * (Domino.DominoWidth + 0.125) - 0.125 = 10 :=
  ⟨le_rfl, centering_symmetric 10 1 0.125 le_rfl⟩

/-- C3 counterexample: a medium half an inch wide (margin 0.25, spacing 0.125)
computes zero tiles per row, yet `calculatePageLayout` returns the plain zero
layout `(0, 0)` — its result type carries no failure and no failure is
raised. -/
theorem layout_zero_counterexample :
    dominoesPerRowOf 0.5 0.25 0.125 = 0
    ∧ calculatePageLayout 0.5 11 0.25 0.125 = (0, 0) := by
  have hrow : dominoesPerRowOf 0.5 0.25 0.125 = 0 := by
    norm_num [dominoesPerRowOf, Domino.DominoWidth, Domino.PIP_DIAMETER,
      Domino.PIP_MARGIN, Domino.COLUMNS_PER_DOMINO]
  refine ⟨hrow, ?_⟩
  rw [calculatePageLayout, hrow, mul_zero]

/-- C3 amended: when the computed tiles-per-row or tiles-per-column is zero,
`calculatePageLayout` silently returns that zero in a layout with zero tiles
per page instead of reporting any failure. -/
theorem layout_zero_silent (w h m s : ℚ)
    (hz : dominoesPerRowOf w m s = 0 ∨ dominoesPerColumnOf h m = 0) :
    (calculatePageLayout w h m s).2 = 0
    ∧ (calculatePageLayout w h m s).1 = dominoesPerRowOf w m s := by
  rcases hz with h | h <;> simp [calculatePageLayout, h]

/-- Witness for the amended C3 at the half-inch-wide medium. -/
theorem layout_zero_silent_witness :
    (dominoesPerRowOf 0.5 0.25 0.125 = 0 ∨ dominoesPerColumnOf 11 0.25 = 0)
    ∧ (calculatePageLayout 0.5 11 0.25 0.125).2 = 0
    ∧ (calculatePageLayout 0.5 11 0.25 0.125).1 = dominoesPerRowOf 0.5 0.25 0.125 := by
  have hz : dominoesPerRowOf 0.5 0.25 0.125 = 0 ∨ dominoesPerColumnOf 11 0.25 = 0 :=
    Or.inl (by norm_num [dominoesPerRowOf, Domino.DominoWidth, Domino.PIP_DIAMETER,
      Domino.PIP_MARGIN, Domino.COLUMNS_PER_DOMINO])
  exact ⟨hz, layout_zero_silent 0.5 11 0.25 0.125 hz⟩

theorem fisherYatesPass_length (rand : Nat → Nat → Nat) :
    ∀ (rem i : Nat) (avail : List Nat), (fisherYatesPass rand avail i rem).length = rem := by
  intro rem
  induction rem with
  | zero => intro i avail; rfl
  | succ rem ih => intro i avail; simp [fisherYatesPass, ih]

theorem cons_perm_getD_set :
    ∀ (t : List Nat) (q : Nat) (c : Nat), q < t.length →
      (c :: t).Perm (t.getD q 0 :: t.set q c) := by
  intro t
  induction t with
  | nil => intro q c hq; simp at hq
  | cons a t ih =>
    intro q c hq
    cases q with
    | zero => simpa using List.Perm.swap a c t
    | succ q =>
      have hq' : q < t.length := by simpa using hq
      have h1 : (c :: a :: t).Perm (a :: (t.getD q 0 :: t.set q c)) :=
        (List.Perm.swap a c t).trans ((ih q c hq').cons a)
      simpa using h1.trans (List.Perm.swap _ _ _)

theorem drop_perm_step :
    ∀ (i : Nat) (l : List Nat) (j : Nat), i ≤ j → j < l.length →
      (l.drop i).Perm (l.getD j 0 :: (l.set j (l.getD i 0)).drop (i + 1)) := by
  intro i
  induction i with
  | zero =>
    intro l j _ hj
    cases l with
    | nil => simp at hj
    | cons c t =>
      cases j with
      | zero => simp
      | succ q => simpa using cons_perm_getD_set t q c (by simpa using hj)
  | succ i ih =>
    intro l j hij hj
    cases l with
    | nil => simp at hj
    | cons c t =>
      cases j with
      | zero => omega
      | succ q =>
        simpa using ih t q (by omega) (by simpa using hj)

theorem fisherYatesPass_subperm (rand : Nat → Nat → Nat)
    (hrand : ∀ i n, i < n → i ≤ rand i n ∧ rand i n < n) :
    ∀ (rem i : Nat) (avail : List Nat), i + rem ≤ avail.length →
      (fisherYatesPass rand avail i rem).Subperm (avail.drop i) := by
  intro rem
  induction rem with
  | zero => intro i avail _; exact List.nil_subperm
  | succ rem ih =>
    intro i avail h
    have hi : i < avail.length := by omega
    obtain ⟨hj1, hj2⟩ := hrand i avail.length hi
    have hlen : (avail.set (rand i avail.length) (avail.getD i 0)).length = avail.length := by
      simp
    have ihs := ih (i + 1) (avail.set (rand i avail.length) (avail.getD i 0))
      (by rw [hlen]; omega)
    have hcons := (List.subperm_cons (avail.getD (rand i avail.length) 0)).mpr ihs
    have hperm := drop_perm_step i avail (rand i avail.length) hj1 hj2
    exact (by simpa [fisherYatesPass] using hcons.trans hperm.symm.subperm)

theorem fisherYatesPass_subperm_full (rand : Nat → Nat → Nat)
    (hrand : ∀ i n, i < n → i ≤ rand i n ∧ rand i n < n)
    (count : Nat) (avail : List Nat) (h : count ≤ avail.length) :
    (fisherYatesPass rand avail 0 count).Subperm avail := by
  simpa using fisherYatesPass_subperm rand hrand count 0 avail (by omega)

theorem randomInt_rand_bounds (raw : Nat → Nat) :
    ∀ i n, i < n → i ≤ randomInt (raw i) i n ∧ randomInt (raw i) i n < n := by
  intro i n hin
  unfold randomInt
  have : raw i % (n - i) < n - i := Nat.mod_lt _ (by omega)
  omega

theorem pick_rand_bounds (raw : Nat → Nat) (base : Nat) :
    ∀ i n, i < n → i ≤ i + raw (base + i) % (n - i) ∧ i + raw (base + i) % (n - i) < n := by
  intro i n hin
  have : raw (base + i) % (n - i) < n - i := Nat.mod_lt _ (by omega)
  omega

theorem VALID_DOMINOES_length : VALID_DOMINOES.length = 904 := validDominoes_length

theorem pickWhileLoop_zero (raw : Nat → Nat) (source : List Nat) (base : Nat) :
    ∀ fuel, pickWhileLoop raw source fuel 0 base = [] := by
  intro fuel
  cases fuel <;> simp [pickWhileLoop]

theorem pickWhileLoop_single (raw : Nat → Nat) (source : List Nat) :
    ∀ (fuel remaining base : Nat), 0 < remaining → remaining ≤ source.length →
      remaining ≤ fuel →
      pickWhileLoop raw source fuel remaining base = pickPass raw base source remaining := by
  intro fuel remaining base h1 h2 h3
  cases fuel with
  | zero => omega
  | succ f =>
    have hmin : min remaining source.length = remaining := Nat.min_eq_left h2
    have hne : remaining ≠ 0 := by omega
    simp [pickWhileLoop, hne, hmin, Nat.sub_self, pickWhileLoop_zero]

theorem pickWhileLoop_length (raw : Nat → Nat) (source : List Nat)
    (hs : source.length ≠ 0) :
    ∀ (fuel remaining base : Nat), remaining ≤ fuel →
      (pickWhileLoop raw source fuel remaining base).length = remaining := by
  intro fuel
  induction fuel with
  | zero =>
    intro rem base h
    have : rem = 0 := by omega
    subst this
    rfl
  | succ f ih =>
    intro rem base h
    by_cases h0 : rem = 0
    · subst h0; simp [pickWhileLoop]
    · have hpass : (pickPass raw base source (min rem source.length)).length
          = min rem source.length := fisherYatesPass_length ..
      simp only [pickWhileLoop, if_neg h0, List.length_append]
      rw [ih (rem - min rem source.length) (base + min rem source.length) (by omega), hpass]
      omega

theorem pickWhileLoop_subset (raw : Nat → Nat) (source : List Nat) :
    ∀ (fuel remaining base x : Nat),
      x ∈ pickWhileLoop raw source fuel remaining base → x ∈ source := by
  intro fuel
  induction fuel with
  | zero => intro rem base x hx; simp [pickWhileLoop] at hx
  | succ f ih =>
    intro rem base x hx
    by_cases h0 : rem = 0
    · subst h0; simp [pickWhileLoop] at hx
    · simp only [pickWhileLoop, if_neg h0, List.mem_append] at hx
      rcases hx with hx | hx
      · exact (fisherYatesPass_subperm_full _ (pick_rand_bounds raw base)
          (min rem source.length) source (Nat.min_le_right _ _)).subset hx
      · exact ih _ _ x hx

theorem generate_ok_spec (raw : Nat → Nat) (n : Nat) (h : n ≤ VALID_DOMINOES.length) :
    ∃ l, generateRandomUniqueDominoes raw n = Except.ok l
      ∧ l.length = n ∧ l.Nodup ∧ ∀ x ∈ l, x ∈ VALID_DOMINOES := by
  have hsub := fisherYatesPass_subperm_full _ (randomInt_rand_bounds raw) n VALID_DOMINOES h
  refine ⟨fisherYatesPass (fun i m => randomInt (raw i) i m) VALID_DOMINOES 0 n,
    ?_, fisherYatesPass_length .., ?_, fun x hx => hsub.subset hx⟩
  · simp [generateRandomUniqueDominoes, Nat.not_lt.mpr h]
  · obtain ⟨l', hperm, hsl⟩ := hsub
    exact hperm.nodup (hsl.nodup validDominoes_nodup)

theorem generate_error_spec (raw : Nat → Nat) (n : Nat) (h : VALID_DOMINOES.length < n) :
    generateRandomUniqueDominoes raw n =
      Except.error "Requested more unique dominoes than valid dominoes exist." := by
  simp [generateRandomUniqueDominoes, h]

theorem pick_ok_spec (raw : Nat → Nat) (n : Nat) (h : n ≤ VALID_DOMINOES.length) :
    ∃ l, pickRandomDominoes raw VALID_DOMINOES n = Except.ok l
      ∧ l.length = n ∧ l.Nodup ∧ ∀ x ∈ l, x ∈ VALID_DOMINOES := by
  have hlen : VALID_DOMINOES.length = 904 := validDominoes_length
  by_cases hn : n = 0
  · subst hn
    exact ⟨[], by simp [pickRandomDominoes, hlen], rfl, List.nodup_nil, by simp⟩
  · have hpos : 0 < n := Nat.pos_of_ne_zero hn
    have hsub := fisherYatesPass_subperm_full _ (pick_rand_bounds raw 0) n VALID_DOMINOES h
    refine ⟨pickPass raw 0 VALID_DOMINOES n, ?_, fisherYatesPass_length .., ?_,
      fun x hx => hsub.subset hx⟩
    · rw [pickRandomDominoes, if_neg (by omega), if_neg hn,
        pickWhileLoop_single raw VALID_DOMINOES n n 0 hpos h le_rfl]
    · obtain ⟨l', hperm, hsl⟩ := hsub
      exact hperm.nodup (hsl.nodup validDominoes_nodup)

theorem pick_overflow_spec (raw : Nat → Nat) (n : Nat) (h : VALID_DOMINOES.length < n) :
    ∃ l, pickRandomDominoes raw VALID_DOMINOES n = Except.ok l
      ∧ l.length = n ∧ ¬ l.Nodup ∧ ∀ x ∈ l, x ∈ VALID_DOMINOES := by
  have hlen : VALID_DOMINOES.length = 904 := validDominoes_length
  refine ⟨pickWhileLoop raw VALID_DOMINOES n n 0, ?_, ?_, ?_, ?_⟩
  · rw [pickRandomDominoes, if_neg (by omega), if_neg (by omega)]
  · exact pickWhileLoop_length raw VALID_DOMINOES (by omega) n n 0 le_rfl
  · intro hnd
    have hsubset : pickWhileLoop raw VALID_DOMINOES n n 0 ⊆ VALID_DOMINOES :=
      fun x hx => pickWhileLoop_subset raw VALID_DOMINOES n n 0 x hx
    have hle := (hnd.subperm hsubset).length_le
    rw [pickWhileLoop_length raw VALID_DOMINOES (by omega) n n 0 le_rfl, hlen] at hle
    omega
  · exact fun x hx => pickWhileLoop_subset raw VALID_DOMINOES n n 0 x hx

/-- C2 counterexample: requesting 905 unique codes from the 904-element valid
set through `pickRandomDominoes` does **not** fail with an
insufficient-capacity error: it succeeds with 905 values that necessarily
repeat. -/
theorem pick_insufficient_capacity_counterexample :
    ∃ l, pickRandomDominoes (fun k => k) VALID_DOMINOES 905 = Except.ok l
      ∧ l.length = 905 ∧ ¬ l.Nodup := by
  obtain ⟨l, h1, h2, h3, _⟩ :=
    pick_overflow_spec (fun k => k) 905 (by rw [VALID_DOMINOES_length]; omega)
  exact ⟨l, h1, h2, h3⟩

/-- C2 amended: for any randomness source, `generateRandomUniqueDominoes`
returns exactly `n` pairwise-distinct members of the valid set whenever
`n ≤ 904` and fails with the insufficient-capacity error whenever `n > 904`;
`pickRandomDominoes` also returns `n` pairwise-distinct members for
`n ≤ 904`, but for `n > 904` it does not fail: it succeeds with `n` values
drawn from the valid set that necessarily contain repeats. -/
theorem samplers_spec (raw : Nat → Nat) (n : Nat) :
    (n ≤ VALID_DOMINOES.length →
      ∃ l, generateRandomUniqueDominoes raw n = Except.ok l
        ∧ l.length = n ∧ l.Nodup ∧ ∀ x ∈ l, x ∈ VALID_DOMINOES)
    ∧ (VALID_DOMINOES.length < n →
        generateRandomUniqueDominoes raw n =
          Except.error "Requested more unique dominoes than valid dominoes exist.")
    ∧ (n ≤ VALID_DOMINOES.length →
      ∃ l, pickRandomDominoes raw VALID_DOMINOES n = Except.ok l
        ∧ l.length = n ∧ l.Nodup ∧ ∀ x ∈ l, x ∈ VALID_DOMINOES)
    ∧ (VALID_DOMINOES.length < n →
      ∃ l, pickRandomDominoes raw VALID_DOMINOES n = Except.ok l
        ∧ l.length = n ∧ ¬ l.Nodup ∧ ∀ x ∈ l, x ∈ VALID_DOMINOES) :=
  ⟨generate_ok_spec raw n, generate_error_spec raw n,
    pick_ok_spec raw n, pick_overflow_spec raw n⟩

/-- Witness for the amended C2 at counts 2 and 905 with the identity
randomness stream. -/
theorem samplers_spec_witness :
    (∃ l, generateRandomUniqueDominoes (fun k => k) 2 = Except.ok l
      ∧ l.length = 2 ∧ l.Nodup ∧ ∀ x ∈ l, x ∈ VALID_DOMINOES)
    ∧ generateRandomUniqueDominoes (fun k => k) 905 =
        Except.error "Requested more unique dominoes than valid dominoes exist."
    ∧ (∃ l, pickRandomDominoes (fun k => k) VALID_DOMINOES 2 = Except.ok l
      ∧ l.length = 2 ∧ l.Nodup ∧ ∀ x ∈ l, x ∈ VALID_DOMINOES)
    ∧ (∃ l, pickRandomDominoes (fun k => k) VALID_DOMINOES 905 = Except.ok l
      ∧ l.length = 905 ∧ ¬ l.Nodup ∧ ∀ x ∈ l, x ∈ VALID_DOMINOES) :=
  ⟨(samplers_spec (fun k => k) 2).1 (by rw [VALID_DOMINOES_length]; omega),
    (samplers_spec (fun k => k) 905).2.1 (by rw [VALID_DOMINOES_length]; omega),
    (samplers_spec (fun k => k) 2).2.2.1 (by rw [VALID_DOMINOES_length]; omega),
    (samplers_spec (fun k => k) 905).2.2.2 (by rw [VALID_DOMINOES_length]; omega)⟩

theorem pageOf_length (perRow : Nat) :
    ∀ (i : Nat) (chunk : List Nat), (pageOf perRow i chunk).length = chunk.length := by
  intro i chunk
  induction chunk generalizing i with
  | nil => rfl
  | cons c cs ih => simp [pageOf, ih]

theorem pageOf_map_fst (perRow : Nat) :
    ∀ (i : Nat) (chunk : List Nat), (pageOf perRow i chunk).map (fun t => t.1) = chunk := by
  intro i chunk
  induction chunk generalizing i with
  | nil => rfl
  | cons c cs ih => simp [pageOf, ih]

theorem pageOf_getD (perRow : Nat) :
    ∀ (chunk : List Nat) (i k : Nat), k < chunk.length →
      (pageOf perRow i chunk).getD k (0, 0, 0)
        = (chunk.getD k 0, (i + k) % perRow, (i + k) / perRow) := by
  intro chunk
  induction chunk with
  | nil => intro i k hk; simp at hk
  | cons c cs ih =>
    intro i k hk
    cases k with
    | zero => simp [pageOf]
    | succ k =>
      have harith : i + 1 + k = i + (k + 1) := by omega
      have hrec := ih (i + 1) k (by simpa using hk)
      simp only [pageOf, List.getD_cons_succ, hrec, harith]

theorem paginateFuel_pages (perRow perPage : Nat) :
    ∀ (fuel : Nat) (codes : List Nat) (pg : List (Nat × Nat × Nat)),
      pg ∈ paginateFuel perRow perPage fuel codes → ∃ chunk, pg = pageOf perRow 0 chunk := by
  intro fuel
  induction fuel with
  | zero => intro codes pg h; simp [paginateFuel] at h
  | succ f ih =>
    intro codes pg h
    cases codes with
    | nil => simp [paginateFuel] at h
    | cons c cs =>
      simp only [paginateFuel, List.mem_cons] at h
      rcases h with h | h
      · exact ⟨_, h⟩
      · exact ih _ _ h

theorem paginateFuel_join (perRow perPage : Nat) (hpp : 1 ≤ perPage) :
    ∀ (fuel : Nat) (codes : List Nat), codes.length ≤ fuel →
      ((paginateFuel perRow perPage fuel codes).map (fun pg => pg.map (fun t => t.1))).join
        = codes := by
  intro fuel
  induction fuel with
  | zero =>
    intro codes h
    have hnil : codes = [] := List.length_eq_zero.mp (by omega)
    subst hnil; rfl
  | succ f ih =>
    intro codes h
    cases codes with
    | nil => rfl
    | cons c cs =>
      have hdrop : ((c :: cs).drop perPage).length ≤ f := by
        simp only [List.length_drop, List.length_cons] at h ⊢
        omega
      simp only [paginateFuel, List.map_cons, List.join_cons, pageOf_map_fst, ih _ hdrop]
      exact List.take_append_drop perPage (c :: cs)

theorem paginateFuel_count (perRow perPage : Nat) (hpp : 1 ≤ perPage) :
    ∀ (fuel : Nat) (codes : List Nat), codes.length ≤ fuel →
      (paginateFuel perRow perPage fuel codes).length
        = (codes.length + perPage - 1) / perPage := by
  intro fuel
  induction fuel with
  | zero =>
    intro codes h
    have hnil : codes = [] := List.length_eq_zero.mp (by omega)
    subst hnil
    simp [paginateFuel, Nat.div_eq_of_lt (by omega : perPage - 1 < perPage)]
  | succ f ih =>
    intro codes h
    cases codes with
    | nil => simp [paginateFuel, Nat.div_eq_of_lt (by omega : perPage - 1 < perPage)]
    | cons c cs =>
      have hdroplen : ((c :: cs).drop perPage).length = cs.length + 1 - perPage := by
        simp [List.length_drop]
      have hrec := ih ((c :: cs).drop perPage)
        (by rw [hdroplen]; simp only [List.length_cons] at h; omega)
      simp only [paginateFuel, List.length_cons, hrec, hdroplen]
      by_cases hc : cs.length + 1 ≤ perPage
      · have e1 : cs.length + 1 - perPage + perPage - 1 = perPage - 1 := by omega
        have e2 : cs.length + 1 + perPage - 1 = (cs.length + 1 - 1) + perPage := by omega
        rw [e1, e2, Nat.add_div_right _ (by omega),
          Nat.div_eq_of_lt (by omega : perPage - 1 < perPage),
          Nat.div_eq_of_lt (by omega : cs.length + 1 - 1 < perPage)]
      · have e1 : cs.length + 1 - perPage + perPage - 1
            = (cs.length + 1 - 1 - perPage) + perPage := by omega
        have e2 : cs.length + 1 + perPage - 1 = (cs.length + 1 - 1) + perPage := by omega
        rw [e1, e2, Nat.add_div_right _ (by omega), Nat.add_div_right _ (by omega),
          Nat.div_eq_sub_div (by omega) (by omega : perPage ≤ cs.length + 1 - 1)]

/-- C4: for tiles-per-row ≥ 1 and tiles-per-page ≥ 1, pagination emits every
input code exactly once in input order across the pages, produces exactly
`ceil(total / tiles_per_page)` pages, and within a page tile `i` gets column
`i % tiles_per_row` and row `i / tiles_per_row`. -/
theorem paginate_spec (codes : List Nat) (perRow perPage : Nat)
    (hrow : 1 ≤ perRow) (hpp : 1 ≤ perPage) :
    ((paginate perRow perPage codes).map (fun pg => pg.map (fun t => t.1))).join = codes
    ∧ (paginate perRow perPage codes).length = (codes.length + perPage - 1) / perPage
    ∧ ∀ pg ∈ paginate perRow perPage codes, ∀ k, k < pg.length →
        (pg.getD k (0, 0, 0)).2 = (k % perRow, k / perRow) := by
  refine ⟨paginateFuel_join perRow perPage hpp _ _ le_rfl,
    paginateFuel_count perRow perPage hpp _ _ le_rfl, ?_⟩
  intro pg hpg k hk
  obtain ⟨chunk, rfl⟩ := paginateFuel_pages perRow perPage _ _ _ hpg
  rw [pageOf_getD perRow chunk 0 k (by rw [← pageOf_length perRow 0 chunk]; exact hk)]
  simp

/-- Witness for C4 on three codes with two tiles per row and two per page. -/
theorem paginate_spec_witness :
    ((paginate 2 2 [10, 20, 30]).map (fun pg => pg.map (fun t => t.1))).join = [10, 20, 30]
    ∧ (paginate 2 2 [10, 20, 30]).length = 2
    ∧ ∀ pg ∈ paginate 2 2 [10, 20, 30], ∀ k, k < pg.length →
        (pg.getD k (0, 0, 0)).2 = (k % 2, k / 2) :=
  paginate_spec [10, 20, 30] 2 2 (by omega) (by omega)
